import Mathlib

/-!
Shallow embedding of `dynamic_rest/serializers.py` (`DynamicModelSerializer`).

The serializer's dynamic data is embedded as follows:

* `RF` is the type of Python values that flow through `request_fields`:
  the booleans `True` / `False` and (nested) dictionaries mapping field
  names to further `RF` values.  Python dictionaries are embedded as
  association lists with insertion order preserved and keyed assignment
  (`d[k] = v`) replacing an existing entry in place.
* `Meta` embeds the serializer's `Meta` class: `name`, the optional
  `plural_name`, the optional `deferred_fields` list (absent list is the
  empty list, as `getattr(..., 'deferred_fields', [])` gives), and
  `allFields`, the ordered field dictionary that
  `super(DynamicModelSerializer, self).get_fields()` returns.
* `FieldInfo` carries the two attributes `get_fields` inspects on a field
  object: the `deferred` flag (`getattr(field, 'deferred', None) == True`)
  and whether the field is a sub-serializer / `DynamicRelationField`
  (the `isinstance` tests of the injection loop), together with the name
  of the related serializer's schema for the recursive call.
* Failures are embedded as `Except PyErr`: `ParseError`, `AttributeError`,
  `TypeError` and `RuntimeError: maximum recursion depth exceeded`.
-/

namespace DynamicRest

/-- A Python value reaching `request_fields`: a boolean, or a dictionary
from field names to nested values (embedded as an ordered association list). -/
inductive RF where
  | bool : Bool → RF
  | map : List (String × RF) → RF

/-- Python truthiness of a `request_fields` value: `False` and `{}` are
falsy, `True` and non-empty dictionaries are truthy. -/
def truthy : RF → Bool
  | RF.bool b => b
  | RF.map m => !m.isEmpty

/-- Python `x == False` on a `request_fields` directive: only the boolean
`False` compares equal to `False` (a dictionary never does). -/
def isFalseRF : RF → Bool
  | RF.bool false => true
  | _ => false

/-- `DynamicModelSerializer.id_only` (serializers.py): Python
`self.request_fields == True`; only the boolean `True` compares equal to
`True` (a dictionary never does). -/
def id_only : RF → Bool
  | RF.bool true => true
  | _ => false

/-- The attributes of one entry of the serializer's field dictionary that
`get_fields` inspects: the `deferred` flag, whether the injection loop
treats the field as a sub-serializer or relation field, and the name under
which the related schema is registered (for the recursive call). -/
structure FieldInfo where
  deferred : Bool
  isRelation : Bool
  relatedTo : Option String
deriving DecidableEq, Repr

/-- The serializer's `Meta` class together with the base field dictionary:
`name` is `None` when the class does not declare it (attribute access then
raises), `plural_name` likewise optional, `deferred_fields` defaults to the
empty list, and `allFields` is what `super().get_fields()` returns. -/
structure Meta where
  name : Option String
  plural_name : Option String
  deferred_fields : List String
  allFields : List (String × FieldInfo)
deriving DecidableEq, Repr

/-- The serializer context (`self._context`), with the defaults the three
`self._context.get(..., default)` calls supply. -/
structure Context where
  request_fields : RF
  include_fields : List String
  exclude_fields : List String

/-- The default context: `_context.get` falls back to `{}` for
`request_fields` and `[]` for the two name lists. -/
def ctx0 : Context := ⟨RF.map [], [], []⟩

/-- The Python exceptions the embedded code can raise. `parseError` embeds
`rest_framework.exceptions.ParseError("'%s' is not a valid field name for
'%s'" % (name, self.Meta.name))`, keeping the two formatted components. -/
inductive PyErr where
  | parseError : String → String → PyErr
  | attributeError : String → PyErr
  | typeError : String → PyErr
  | recursionError : PyErr
deriving DecidableEq, Repr

/-- The message of the `TypeError` Python raises for `True[name] = value`. -/
def boolAssignMsg : String := "bool object does not support item assignment"

/-- Association-list lookup, first entry with the key wins (Python `d[k]` /
`d.get(k)` on our ordered-list embedding of a dictionary). -/
def dlookup {α : Type} (k : String) : List (String × α) → Option α
  | [] => none
  | (k', v) :: rest => if k' = k then some v else dlookup k rest

/-- Whether the dictionary has an entry with key `k`. -/
def hasKey {α : Type} (k : String) : List (String × α) → Bool
  | [] => false
  | (k', _) :: rest => if k' = k then true else hasKey k rest

/-- Python keyed assignment `d[k] = v` on the ordered-list embedding:
replace the entry of an existing key in place (a dictionary holds each key
once), append a new key at the end. -/
def dictSet {α : Type} (m : List (String × α)) (k : String) (v : α) : List (String × α) :=
  match m with
  | [] => [(k, v)]
  | (k', w) :: rest => if k' = k then (k, v) :: rest else (k', w) :: dictSet rest k v

/-- String-list membership (Python `name in someList` / set membership). -/
def selem (x : String) : List String → Bool
  | [] => false
  | y :: rest => if y = x then true else selem x rest

/-- Python `someSet.remove(x)` on the list embedding of a set. -/
def removeStr (n : String) : List String → List String
  | [] => []
  | x :: rest => if x = n then removeStr n rest else x :: removeStr n rest

/-- All keys of the association list are distinct (true of every embedded
Python dictionary). -/
def keysNodup {α : Type} : List (String × α) → Bool
  | [] => true
  | (k, _) :: rest => !hasKey k rest && keysNodup rest

/-- Python `argumentValue or contextValue` for the `request_fields`
argument (default `None`): `None`, `False` and `{}` are falsy. -/
def pyOr (arg : Option RF) (ctxVal : RF) : RF :=
  match arg with
  | some rf => if truthy rf then rf else ctxVal
  | none => ctxVal

/-- Python `argumentValue or contextValue` for the `include_fields` /
`exclude_fields` arguments (default `None`): `None` and `[]` are falsy. -/
def pyOrList (arg : Option (List String)) (ctxVal : List String) : List String :=
  match arg with
  | some l => if l.isEmpty then ctxVal else l
  | none => ctxVal

/-- The loop `for name in names: rf[name] = v` (serializers.py, `__init__`).
On a dictionary every assignment succeeds; on a boolean the first
assignment raises `TypeError` (so a non-empty loop over a boolean fails). -/
def applyAssignAll (rf : RF) (names : List String) (v : RF) : Except PyErr RF :=
  match rf with
  | RF.bool b =>
    match names with
    | [] => Except.ok (RF.bool b)
    | _ :: _ => Except.error (PyErr.typeError boolAssignMsg)
  | RF.map m => Except.ok (RF.map (names.foldl (fun acc n => dictSet acc n v) m))

/-- `DynamicModelSerializer.__init__` (serializers.py): the value
`self.request_fields` holds after the constructor ran — the caller's
`request_fields` (or the context's, or `{}`) with every `include_fields`
name assigned `True` and then every `exclude_fields` name assigned
`False`. -/
def initRequestFields (request_fields : Option RF) (ctx : Context)
    (include_fields exclude_fields : Option (List String)) : Except PyErr RF :=
  let rf := pyOr request_fields ctx.request_fields
  let inc := pyOrList include_fields ctx.include_fields
  let exc := pyOrList exclude_fields ctx.exclude_fields
  match applyAssignAll rf inc (RF.bool true) with
  | Except.error e => Except.error e
  | Except.ok rf' => applyAssignAll rf' exc (RF.bool false)

/-- The caller's `request_fields` object after `__init__` ran.  Python binds
`self.request_fields` to the caller's dictionary itself when the argument is
truthy (`request_fields or ...` keeps the very object), and the
include/exclude loops assign into it in place, so a truthy caller map ends
up holding the merged result; on the `TypeError` path (a boolean argument)
no assignment succeeded, and a falsy argument is never touched. -/
def callerMapAfterInit (callerMap : RF) (ctx : Context)
    (include_fields exclude_fields : Option (List String)) : RF :=
  if truthy callerMap then
    match initRequestFields (some callerMap) ctx include_fields exclude_fields with
    | Except.ok rf => rf
    | Except.error _ => callerMap
  else callerMap

/-- `DynamicModelSerializer.get_name`: `return self.Meta.name`, an
`AttributeError` when the Meta class does not declare `name`. -/
def get_name (meta : Meta) : Except PyErr String :=
  match meta.name with
  | some n => Except.ok n
  | none => Except.error (PyErr.attributeError "name")

/-- `DynamicModelSerializer.get_plural_name`:
`getattr(self.Meta, 'plural_name', self.get_name() + 's')`.  Python
evaluates the default argument before the `getattr` call, so a missing
`name` raises even when `plural_name` is declared. -/
def get_plural_name (meta : Meta) : Except PyErr String :=
  match get_name meta with
  | Except.error e => Except.error e
  | Except.ok n => Except.ok (match meta.plural_name with
      | some p => p
      | none => n ++ "s")

/-- The deferred-by-default set of `get_fields`: the names of the base
fields whose `deferred` flag is set or which `Meta.deferred_fields` lists
(a comprehension over the base field dictionary, in field order). -/
def computeDeferred (flds : List (String × FieldInfo)) (metaDeferred : List String) :
    List String :=
  (flds.filter (fun p => p.2.deferred || selem p.1 metaDeferred)).map Prod.fst

/-- The request-override loop of `get_fields`: for each `(name, include)`
of the request dictionary in order, raise `ParseError` when `name` is not a
base field (formatting `self.Meta.name`, itself an `AttributeError` when
`name` is undeclared on `Meta`); otherwise remove `name` from the deferred
set when the directive is not `False` and it is deferred, and add it when
the directive is `False`. -/
def applyOverrides (meta : Meta) (fieldNames : List String) :
    List (String × RF) → List String → Except PyErr (List String)
  | [], deferred => Except.ok deferred
  | (name, inc) :: rest, deferred =>
    if selem name fieldNames then
      applyOverrides meta fieldNames rest
        (if !isFalseRF inc && selem name deferred then removeStr name deferred
         else if isFalseRF inc then
           (if selem name deferred then deferred else deferred ++ [name])
         else deferred)
    else
      match meta.name with
      | some nm => Except.error (PyErr.parseError name nm)
      | none => Except.error (PyErr.attributeError "name")

/-- The name at which the override loop raises: the first entry of the
request dictionary, in order, whose name is not a declared field. -/
def firstUnknown (fieldNames : List String) : List (String × RF) → Option String
  | [] => none
  | (n, _) :: rest => if selem n fieldNames then firstUnknown fieldNames rest else some n

/-- `request_fields.iteritems()`: the entries of a dictionary; on a boolean
the attribute access raises. -/
def RF.entries : RF → Except PyErr (List (String × RF))
  | RF.map m => Except.ok m
  | RF.bool _ => Except.error (PyErr.attributeError "iteritems")

/-- `request_fields.get(name, True)`: dictionary lookup with default; on a
boolean the attribute access raises. -/
def RF.pyGet (rf : RF) (k : String) (dflt : RF) : Except PyErr RF :=
  match rf with
  | RF.map m => Except.ok ((dlookup k m).getD dflt)
  | RF.bool _ => Except.error (PyErr.attributeError "get")

/-- The injection loop of `get_fields`: for every remaining field that is a
sub-serializer or relation field, the child serializer's `request_fields`
is set to `request_fields.get(name, True)`.  Returns the assignments as an
ordered map from field name to the injected child request. -/
def childRequests : List (String × FieldInfo) → RF → Except PyErr (List (String × RF))
  | [], _ => Except.ok []
  | (name, info) :: rest, rf =>
    if info.isRelation then
      match RF.pyGet rf name (RF.bool true) with
      | Except.error e => Except.error e
      | Except.ok v =>
        match childRequests rest rf with
        | Except.error e => Except.error e
        | Except.ok tail => Except.ok ((name, v) :: tail)
    else childRequests rest rf

/-- `DynamicModelSerializer.get_fields` (serializers.py): the resolved
field set together with the child requests the injection loop assigns.
`{}` is returned in identifier-only mode; otherwise the deferred-by-default
set is computed, the request overrides are applied when the request is
truthy, the deferred names are popped from the base field dictionary, and
the child requests are injected into the remaining relational fields. -/
def get_fields (meta : Meta) (request_fields : RF) :
    Except PyErr (List (String × FieldInfo) × List (String × RF)) :=
  if id_only request_fields then Except.ok ([], [])
  else
    let serializer_fields := meta.allFields
    let fieldNames := serializer_fields.map Prod.fst
    let deferred0 := computeDeferred serializer_fields meta.deferred_fields
    let deferredE : Except PyErr (List String) :=
      if truthy request_fields then
        match RF.entries request_fields with
        | Except.error e => Except.error e
        | Except.ok entries => applyOverrides meta fieldNames entries deferred0
      else Except.ok deferred0
    match deferredE with
    | Except.error e => Except.error e
    | Except.ok deferred =>
      let remaining := serializer_fields.filter (fun p => !selem p.1 deferred)
      match childRequests remaining request_fields with
      | Except.error e => Except.error e
      | Except.ok child => Except.ok (remaining, child)

/-- A serialized Python value: the representation dictionaries
`to_representation` builds, primary keys, scalars and lists. -/
inductive Value where
  | int : Int → Value
  | str : String → Value
  | pynone : Value
  | vmap : List (String × Value) → Value
  | list : List Value → Value

/-- Whether a value is a representation dictionary. -/
def Value.isMap : Value → Bool
  | Value.vmap _ => true
  | _ => false

/-- Lookup of a key in a representation dictionary (none on non-maps). -/
def Value.mlookup (v : Value) (k : String) : Option Value :=
  match v with
  | Value.vmap m => dlookup k m
  | _ => none

mutual
/-- The raw value a model instance holds for one field: a scalar, one
related instance, or a collection of related instances. -/
inductive Attr where
  | scalar : Value → Attr
  | rel : Instance → Attr
  | relMany : List Instance → Attr
/-- A model instance: its primary-key value and its named attributes. -/
inductive Instance where
  | mk : Value → List (String × Attr) → Instance
end

/-- `instance.pk`. -/
def Instance.pk : Instance → Value
  | Instance.mk p _ => p

/-- The instance's named attributes. -/
def Instance.attrs : Instance → List (String × Attr)
  | Instance.mk _ a => a

/-- `Option` to `Except`, raising the given error when absent. -/
def ofOption {α : Type} (o : Option α) (e : PyErr) : Except PyErr α :=
  match o with
  | some a => Except.ok a
  | none => Except.error e

/-- Serialization of one field's raw attribute value: scalars pass through
(field-type coercion is outside this core); a related instance is
serialized by the child serializer (`serialize`) of the related schema with
the injected child request; a collection serializes each member. -/
def serAttr (serialize : Meta → RF → Instance → Except PyErr Value)
    (reg : List (String × Meta)) (info : FieldInfo) (crf : RF) :
    Attr → Except PyErr Value
  | Attr.scalar v => Except.ok v
  | Attr.rel i =>
    match info.relatedTo with
    | none => Except.error (PyErr.attributeError "serializer")
    | some rn =>
      match dlookup rn reg with
      | none => Except.error (PyErr.attributeError rn)
      | some cmeta => serialize cmeta crf i
  | Attr.relMany is =>
    match info.relatedTo with
    | none => Except.error (PyErr.attributeError "serializer")
    | some rn =>
      match dlookup rn reg with
      | none => Except.error (PyErr.attributeError rn)
      | some cmeta =>
        match is.mapM (serialize cmeta crf) with
        | Except.error e => Except.error e
        | Except.ok vs => Except.ok (Value.list vs)

/-- Serialization of the resolved field set in order, pairing each field
name with its serialized value.  Relational fields run under the child
request the injection loop assigned for them (`Bool true` when none). -/
def serFields (serialize : Meta → RF → Instance → Except PyErr Value)
    (reg : List (String × Meta)) (inst : Instance) (child : List (String × RF)) :
    List (String × FieldInfo) → Except PyErr (List (String × Value))
  | [] => Except.ok []
  | (name, info) :: rest =>
    match dlookup name inst.attrs with
    | none => Except.error (PyErr.attributeError name)
    | some a =>
      match serAttr serialize reg info ((dlookup name child).getD (RF.bool true)) a with
      | Except.error e => Except.error e
      | Except.ok v =>
        match serFields serialize reg inst child rest with
        | Except.error e => Except.error e
        | Except.ok tail => Except.ok ((name, v) :: tail)

/-- `DynamicModelSerializer.to_representation` (serializers.py), run
recursively over the object graph.  In identifier-only mode the instance's
primary key is returned directly.  Otherwise the resolved fields are
serialized (relations recursing with the injected child request and the
related schema looked up in the registry `reg`), and the two reserved keys
are stamped: `representation['_name'] = self.get_plural_name()` and
`representation['_pk'] = instance.pk`.  `fuel` bounds the recursion depth
as Python's interpreter stack does; exhausting it is the embedded
`RuntimeError: maximum recursion depth exceeded`. -/
def toRep (reg : List (String × Meta)) :
    Nat → Meta → RF → Instance → Except PyErr Value
  | fuel, meta, rf, inst =>
    if id_only rf then Except.ok inst.pk
    else
      match fuel with
      | 0 => Except.error PyErr.recursionError
      | Nat.succ fuel =>
        match get_fields meta rf with
        | Except.error e => Except.error e
        | Except.ok (flds, child) =>
          match serFields (fun cm crf ci => toRep reg fuel cm crf ci) reg inst child flds with
          | Except.error e => Except.error e
          | Except.ok pairs =>
            match get_plural_name meta with
            | Except.error e => Except.error e
            | Except.ok plural =>
              Except.ok (Value.vmap
                (dictSet (dictSet pairs "_name" (Value.str plural)) "_pk" inst.pk))

/-! ### Dictionary and list lemmas -/

theorem hasKey_false_dlookup {α : Type} (k : String) :
    ∀ m : List (String × α), hasKey k m = false → dlookup k m = none := by
  intro m
  induction m with
  | nil => intro _; rfl
  | cons p rest ih =>
    obtain ⟨k', v⟩ := p
    intro h
    by_cases hk : k' = k
    · simp [hasKey, hk] at h
    · simpa [dlookup, hk] using ih (by simpa [hasKey, hk] using h)

theorem dlookup_dictSet_self {α : Type} (k : String) (v : α) :
    ∀ m : List (String × α), dlookup k (dictSet m k v) = some v := by
  intro m
  induction m with
  | nil => simp [dictSet, dlookup]
  | cons p rest ih =>
    obtain ⟨k', w⟩ := p
    by_cases hk : k' = k
    · simp [dictSet, hk, dlookup]
    · simp [dictSet, hk, dlookup, ih]

theorem dlookup_dictSet_ne {α : Type} (k k' : String) (v : α) (h : k' ≠ k) :
    ∀ m : List (String × α), dlookup k' (dictSet m k v) = dlookup k' m := by
  intro m
  have hk : ¬k = k' := fun hh => h hh.symm
  induction m with
  | nil => simp [dictSet, dlookup, hk]
  | cons p rest ih =>
    obtain ⟨a, b⟩ := p
    by_cases ha : a = k
    · subst ha
      simp [dictSet, dlookup, hk]
    · simp [dictSet, ha, dlookup, ih]

theorem hasKey_dictSet {α : Type} (k x : String) (v : α) :
    ∀ m : List (String × α), hasKey x (dictSet m k v) = (hasKey x m || decide (k = x)) := by
  intro m
  induction m with
  | nil => simp [dictSet, hasKey]
  | cons p rest ih =>
    obtain ⟨a, b⟩ := p
    by_cases ha : a = k
    · subst ha
      by_cases hx : a = x
      · simp [dictSet, hasKey, hx]
      · simp [dictSet, hasKey, hx]
    · by_cases hx : a = x
      · subst hx; simp [dictSet, ha, hasKey]
      · simp [dictSet, ha, hasKey, hx, ih]

theorem keysNodup_dictSet {α : Type} (k : String) (v : α) :
    ∀ m : List (String × α), keysNodup m = true → keysNodup (dictSet m k v) = true := by
  intro m
  induction m with
  | nil => intro _; simp [dictSet, keysNodup, hasKey]
  | cons p rest ih =>
    obtain ⟨a, b⟩ := p
    intro h
    simp only [keysNodup, Bool.and_eq_true, Bool.not_eq_true'] at h
    by_cases ha : a = k
    · subst ha
      simpa [dictSet, keysNodup, Bool.not_eq_true'] using h
    · have h1 := ih h.2
      simp [dictSet, ha, keysNodup, hasKey_dictSet, h.1, h1,
        show ¬k = a from fun hh => ha hh.symm]

theorem selem_removeStr (x n : String) :
    ∀ l : List String, selem x (removeStr n l) = if x = n then false else selem x l := by
  intro l
  induction l with
  | nil => simp [removeStr, selem]
  | cons y rest ih =>
    by_cases hy : y = n
    · subst hy
      by_cases hx : x = y
      · subst hx; simp [removeStr, ih]
      · simp [removeStr, ih, hx, selem, show ¬y = x from fun hh => hx hh.symm]
    · by_cases hx : y = x
      · subst hx
        simp [removeStr, hy, selem, show ¬y = n from hy]
      · simp [removeStr, hy, selem, hx, ih]

theorem selem_append_single (x n : String) :
    ∀ l : List String, selem x (l ++ [n]) = (selem x l || decide (n = x)) := by
  intro l
  induction l with
  | nil => simp [selem]
  | cons y rest ih =>
    by_cases hy : y = x
    · simp [selem, hy]
    · simp [selem, hy, ih]

theorem dlookup_assignFold {α : Type} (v : α) :
    ∀ (names : List String) (m : List (String × α)) (x : String),
      dlookup x (names.foldl (fun acc n => dictSet acc n v) m) =
      if selem x names then some v else dlookup x m := by
  intro names
  induction names with
  | nil => intro m x; simp [selem]
  | cons n rest ih =>
    intro m x
    simp only [List.foldl_cons]
    rw [ih]
    by_cases hr : selem x rest = true
    · simp [selem, hr]
    · by_cases hnx : n = x
      · subst hnx
        simp [selem, hr, dlookup_dictSet_self]
      · simp [selem, hnx, hr, dlookup_dictSet_ne n x v (fun hh => hnx hh.symm)]

theorem keysNodup_assignFold {α : Type} (v : α) :
    ∀ (names : List String) (m : List (String × α)),
      keysNodup m = true →
      keysNodup (names.foldl (fun acc n => dictSet acc n v) m) = true := by
  intro names
  induction names with
  | nil => intro m h; simpa using h
  | cons n rest ih =>
    intro m h
    simp only [List.foldl_cons]
    exact ih (dictSet m n v) (keysNodup_dictSet n v m h)

/-- `request_fields or self._context.get('request_fields', {})` keeps a
dictionary argument: a non-empty one because it is truthy, an empty one
because the context default is also `{}`. -/
theorem pyOr_map_default (m : List (String × RF)) :
    pyOr (some (RF.map m)) (RF.map []) = RF.map m := by
  cases m <;> simp [pyOr, truthy]

theorem pyOrList_some_default (l : List String) : pyOrList (some l) [] = l := by
  cases l <;> simp [pyOrList]

theorem pyOrList_none (ctxVal : List String) : pyOrList none ctxVal = ctxVal := rfl

/-- `__init__` on a dictionary request: the merge always succeeds and
assigns `True` to every include name, then `False` to every exclude name. -/
theorem initRequestFields_map (m : List (String × RF)) (inc exc : List String) :
    initRequestFields (some (RF.map m)) ctx0 (some inc) (some exc) =
    Except.ok (RF.map (exc.foldl (fun acc n => dictSet acc n (RF.bool false))
      (inc.foldl (fun acc n => dictSet acc n (RF.bool true)) m))) := by
  simp [initRequestFields, ctx0, pyOr_map_default, pyOrList_some_default, applyAssignAll]

theorem initRequestFields_map_inc (m : List (String × RF)) (inc : List String) :
    initRequestFields (some (RF.map m)) ctx0 (some inc) none =
    Except.ok (RF.map (inc.foldl (fun acc n => dictSet acc n (RF.bool true)) m)) := by
  simp only [initRequestFields, ctx0, pyOr_map_default, pyOrList_some_default, pyOrList_none,
    applyAssignAll, List.foldl_nil]

theorem selem_computeDeferred (md : List String) :
    ∀ (flds : List (String × FieldInfo)) (x : String) (info : FieldInfo),
      dlookup x flds = some info → (info.deferred || selem x md) = true →
      selem x (computeDeferred flds md) = true := by
  intro flds
  induction flds with
  | nil => intro x info h; simp [dlookup] at h
  | cons p rest ih =>
    obtain ⟨k, i⟩ := p
    intro x info h hdef
    by_cases hk : k = x
    · subst hk
      simp [dlookup] at h
      subst h
      simp [computeDeferred, List.filter_cons, hdef, selem]
    · simp only [dlookup, if_neg hk] at h
      have hrest := ih x info h hdef
      by_cases hp : (i.deferred || selem k md) = true
      · simpa [computeDeferred, List.filter_cons, hp, selem, hk] using hrest
      · have hp' : (i.deferred || selem k md) = false := by
          simpa using hp
        simpa [computeDeferred, List.filter_cons, hp'] using hrest

/-- The override loop, run to success on a dictionary with distinct keys,
leaves exactly the names whose directive is `False` plus the
deferred-by-default names the request does not mention. -/
theorem applyOverrides_ok_selem (meta : Meta) (fn : List String) :
    ∀ (entries : List (String × RF)) (d0 d' : List String),
      keysNodup entries = true →
      applyOverrides meta fn entries d0 = Except.ok d' →
      ∀ x, selem x d' =
        (match dlookup x entries with
         | some dir => isFalseRF dir
         | none => selem x d0) := by
  intro entries
  induction entries with
  | nil =>
    intro d0 d' _ h x
    simp only [applyOverrides, Except.ok.injEq] at h
    subst h
    simp [dlookup]
  | cons p rest ih =>
    obtain ⟨n, inc⟩ := p
    intro d0 d' hnd h x
    simp only [keysNodup, Bool.and_eq_true, Bool.not_eq_true'] at hnd
    simp only [applyOverrides] at h
    by_cases hv : selem n fn = true
    · rw [if_pos hv] at h
      have hx := ih _ d' hnd.2 h
      by_cases hnx : n = x
      · subst hnx
        have hrest : dlookup n rest = none := hasKey_false_dlookup n rest hnd.1
        have hd1 := hx n
        rw [hrest] at hd1
        simp only [dlookup, if_pos rfl]
        rw [hd1]
        by_cases hf : isFalseRF inc = true
        · by_cases hs : selem n d0 = true
          · simp [hf, hs]
          · simp [hf, hs, selem_append_single]
        · have hf' : isFalseRF inc = false := by simpa using hf
          by_cases hs : selem n d0 = true
          · simp [hf', hs, selem_removeStr]
          · simp [hf', hs]
      · have hd1 := hx x
        simp only [dlookup, if_neg hnx]
        rw [hd1]
        cases hdl : dlookup x rest with
        | some dir => simp [hdl]
        | none =>
          simp only [hdl]
          have hxne : ¬x = n := fun hh => hnx hh.symm
          by_cases hf : isFalseRF inc = true
          · by_cases hs : selem n d0 = true
            · simp [hf, hs]
            · simp [hf, hs, selem_append_single, hnx]
          · have hf' : isFalseRF inc = false := by simpa using hf
            by_cases hs : selem n d0 = true
            · simp [hf', hs, selem_removeStr, hxne]
            · simp [hf', hs]
    · rw [if_neg hv] at h
      cases hm : meta.name with
      | some nm => rw [hm] at h; exact absurd h (by simp)
      | none => rw [hm] at h; exact absurd h (by simp)

/-- The override loop raises `ParseError` at the first request name that is
not a declared field, formatting that name and `Meta.name`. -/
theorem applyOverrides_firstUnknown (meta : Meta) (fn : List String) (nm : String)
    (hname : meta.name = some nm) :
    ∀ (entries : List (String × RF)) (d0 : List String) (n : String),
      firstUnknown fn entries = some n →
      applyOverrides meta fn entries d0 = Except.error (PyErr.parseError n nm) ∧
      selem n fn = false ∧ (dlookup n entries).isSome = true := by
  intro entries
  induction entries with
  | nil => intro d0 n h; simp [firstUnknown] at h
  | cons p rest ih =>
    obtain ⟨k, v⟩ := p
    intro d0 n h
    by_cases hk : selem k fn = true
    · rw [firstUnknown, if_pos hk] at h
      obtain ⟨h1, h2, h3⟩ := ih _ n h
      have hkn : ¬k = n := by
        intro hh
        rw [hh, h2] at hk
        exact Bool.noConfusion hk
      refine ⟨?_, h2, ?_⟩
      · rw [applyOverrides, if_pos hk]
        exact h1
      · simpa [dlookup, hkn] using h3
    · rw [firstUnknown, if_neg hk] at h
      have hkn : k = n := by simpa using h
      subst hkn
      simp only [Bool.not_eq_true] at hk
      refine ⟨?_, hk, by simp [dlookup]⟩
      rw [applyOverrides, if_neg (by simp [hk]), hname]

/-- Fields whose name survives the deferred set survive the pop loop with
their descriptor; the first matching entry is preserved. -/
theorem dlookup_filter_kept (deferred : List String) :
    ∀ (flds : List (String × FieldInfo)) (name : String) (info : FieldInfo),
      dlookup name flds = some info → selem name deferred = false →
      dlookup name (flds.filter (fun p => !selem p.1 deferred)) = some info := by
  intro flds
  induction flds with
  | nil => intro name info h; simp [dlookup] at h
  | cons p rest ih =>
    obtain ⟨k, i⟩ := p
    intro name info h hn
    by_cases hk : k = name
    · subst hk
      simp [dlookup] at h
      subst h
      simp [List.filter_cons, hn, dlookup]
    · simp only [dlookup, if_neg hk] at h
      by_cases hp : selem k deferred = true
      · simpa [List.filter_cons, hp] using ih name info h hn
      · have hp' : selem k deferred = false := by simpa using hp
        simpa [List.filter_cons, hp', dlookup, hk] using ih name info h hn

/-- A name in the deferred set is popped: no entry with it survives. -/
theorem dlookup_filter_dropped (deferred : List String) :
    ∀ (flds : List (String × FieldInfo)) (name : String),
      selem name deferred = true →
      dlookup name (flds.filter (fun p => !selem p.1 deferred)) = none := by
  intro flds
  induction flds with
  | nil => intro name _; simp [dlookup]
  | cons p rest ih =>
    obtain ⟨k, i⟩ := p
    intro name hn
    by_cases hk : k = name
    · subst hk
      simpa [List.filter_cons, hn] using ih k hn
    · by_cases hp : selem k deferred = true
      · simpa [List.filter_cons, hp] using ih name hn
      · have hp' : selem k deferred = false := by simpa using hp
        simpa [List.filter_cons, hp', dlookup, hk] using ih name hn

/-- The injection loop assigns `request_fields.get(name, True)` to every
relational field of the resolved set. -/
theorem childRequests_dlookup (m : List (String × RF)) :
    ∀ (flds : List (String × FieldInfo)) (ch : List (String × RF))
      (name : String) (info : FieldInfo),
      childRequests flds (RF.map m) = Except.ok ch →
      dlookup name flds = some info → info.isRelation = true →
      dlookup name ch = some ((dlookup name m).getD (RF.bool true)) := by
  intro flds
  induction flds with
  | nil => intro ch name info _ h; simp [dlookup] at h
  | cons p rest ih =>
    obtain ⟨k, i⟩ := p
    intro ch name info hch h hrel
    by_cases hk : k = name
    · subst hk
      simp [dlookup] at h
      subst h
      rw [childRequests, if_pos hrel] at hch
      simp only [RF.pyGet] at hch
      cases hrest : childRequests rest (RF.map m) with
      | error e => rw [hrest] at hch; exact absurd hch (by simp)
      | ok tail =>
        rw [hrest] at hch
        simp only [Except.ok.injEq] at hch
        subst hch
        simp [dlookup]
    · simp only [dlookup, if_neg hk] at h
      by_cases hr : i.isRelation = true
      · rw [childRequests, if_pos hr] at hch
        simp only [RF.pyGet] at hch
        cases hrest : childRequests rest (RF.map m) with
        | error e => rw [hrest] at hch; exact absurd hch (by simp)
        | ok tail =>
          rw [hrest] at hch
          simp only [Except.ok.injEq] at hch
          subst hch
          simpa [dlookup, hk] using ih tail name info hrest h hrel
      · rw [childRequests, if_neg hr] at hch
        exact ih ch name info hch h hrel

/-- `get_fields` on a dictionary request, in one normal form: apply the
override loop, pop the deferred names, inject the child requests.  (An
empty dictionary is falsy and skips the loop, which is the same as running
the loop over no entries.) -/
theorem get_fields_map_eq (meta : Meta) (m : List (String × RF)) :
    get_fields meta (RF.map m) =
      (match applyOverrides meta (meta.allFields.map Prod.fst) m
          (computeDeferred meta.allFields meta.deferred_fields) with
       | Except.error e => Except.error e
       | Except.ok deferred =>
         match childRequests (meta.allFields.filter (fun p => !selem p.1 deferred))
             (RF.map m) with
         | Except.error e => Except.error e
         | Except.ok child =>
           Except.ok (meta.allFields.filter (fun p => !selem p.1 deferred), child)) := by
  cases m with
  | nil => simp [get_fields, id_only, truthy, applyOverrides]
  | cons p rest => simp [get_fields, id_only, truthy, RF.entries]

theorem get_fields_map_ok (meta : Meta) (m : List (String × RF))
    (flds : List (String × FieldInfo)) (ch : List (String × RF))
    (h : get_fields meta (RF.map m) = Except.ok (flds, ch)) :
    ∃ deferred : List String,
      applyOverrides meta (meta.allFields.map Prod.fst) m
        (computeDeferred meta.allFields meta.deferred_fields) = Except.ok deferred ∧
      flds = meta.allFields.filter (fun p => !selem p.1 deferred) ∧
      childRequests flds (RF.map m) = Except.ok ch := by
  rw [get_fields_map_eq] at h
  cases hov : applyOverrides meta (meta.allFields.map Prod.fst) m
      (computeDeferred meta.allFields meta.deferred_fields) with
  | error e => simp [hov] at h
  | ok deferred =>
    simp only [hov] at h
    cases hch : childRequests (meta.allFields.filter (fun p => !selem p.1 deferred))
        (RF.map m) with
    | error e => simp [hch] at h
    | ok child =>
      simp only [hch, Except.ok.injEq, Prod.mk.injEq] at h
      obtain ⟨h1, h2⟩ := h
      subst h1
      subst h2
      exact ⟨deferred, rfl, rfl, hch⟩

/-- Identifier-only short-circuit of `to_representation`: with
`request_fields == True` the primary key is returned before any field
resolution, whatever the schema, registry or recursion budget. -/
theorem toRep_bool_true (reg : List (String × Meta)) (fuel : Nat) (meta : Meta)
    (inst : Instance) : toRep reg fuel meta (RF.bool true) inst = Except.ok inst.pk := by
  cases fuel <;> rfl

theorem toRep_zero (reg : List (String × Meta)) (meta : Meta) (rf : RF) (inst : Instance) :
    toRep reg 0 meta rf inst =
      (if id_only rf then Except.ok inst.pk else Except.error PyErr.recursionError) := rfl

theorem toRep_succ (reg : List (String × Meta)) (n : Nat) (meta : Meta) (rf : RF)
    (inst : Instance) :
    toRep reg (n + 1) meta rf inst =
      (if id_only rf then Except.ok inst.pk
       else
        match get_fields meta rf with
        | Except.error e => Except.error e
        | Except.ok (flds, child) =>
          match serFields (fun cm crf ci => toRep reg n cm crf ci) reg inst child flds with
          | Except.error e => Except.error e
          | Except.ok pairs =>
            match get_plural_name meta with
            | Except.error e => Except.error e
            | Except.ok plural =>
              Except.ok (Value.vmap
                (dictSet (dictSet pairs "_name" (Value.str plural)) "_pk" inst.pk))) := rfl

theorem get_plural_name_of_name (meta : Meta) (nm : String) (hname : meta.name = some nm) :
    get_plural_name meta = Except.ok (meta.plural_name.getD (nm ++ "s")) := by
  cases hp : meta.plural_name <;> simp [get_plural_name, get_name, hname, hp]

/-- C4: serializing with `request_fields` being exactly the boolean `True`
returns exactly the instance's primary-key value, not wrapped in an
envelope, whatever the schema, registry or recursion budget; and
identifier-only mode holds iff `request_fields` is exactly the boolean
`True` (not a dictionary, not `False`). -/
theorem C4_identifier_only_short_circuit :
    (∀ (reg : List (String × Meta)) (fuel : Nat) (meta : Meta) (inst : Instance),
      toRep reg fuel meta (RF.bool true) inst = Except.ok inst.pk) ∧
    (∀ rf : RF, id_only rf = true ↔ rf = RF.bool true) := by
  refine ⟨toRep_bool_true, ?_⟩
  intro rf
  cases rf with
  | bool b => cases b <;> simp [id_only]
  | map m => simp [id_only]

/-- C9: passing `request_fields = True` together with a non-empty include
list (or exclude list) does not build an identifier-only serializer: the
constructor's merge loop performs keyed assignment into the boolean and
raises `TypeError` before any serialization can happen. -/
theorem C9_bool_true_with_includes_raises :
    (∀ (n : String) (rest : List String) (exc : Option (List String)),
      initRequestFields (some (RF.bool true)) ctx0 (some (n :: rest)) exc =
        Except.error (PyErr.typeError boolAssignMsg)) ∧
    (∀ (n : String) (rest : List String),
      initRequestFields (some (RF.bool true)) ctx0 none (some (n :: rest)) =
        Except.error (PyErr.typeError boolAssignMsg)) := by
  constructor
  · intro n rest exc; rfl
  · intro n rest; rfl

/-- C1: a field deferred by default (its own `deferred` flag or membership
in `Meta.deferred_fields`) and not named in the request dictionary is
absent from the resolved field set; named with a directive other than
`False` (so `True` or a nested dictionary) it is present. -/
theorem C1_default_deferral (meta : Meta) (m : List (String × RF)) (name : String)
    (info : FieldInfo) (flds : List (String × FieldInfo)) (ch : List (String × RF))
    (hnodup : keysNodup m = true)
    (hinfo : dlookup name meta.allFields = some info)
    (hdef : (info.deferred || selem name meta.deferred_fields) = true)
    (hok : get_fields meta (RF.map m) = Except.ok (flds, ch)) :
    (dlookup name m = none → dlookup name flds = none) ∧
    (∀ d : RF, dlookup name m = some d → isFalseRF d = false →
      dlookup name flds = some info) := by
  obtain ⟨deferred, hov, hflds, hch⟩ := get_fields_map_ok meta m flds ch hok
  have hchar := applyOverrides_ok_selem meta (meta.allFields.map Prod.fst) m
    (computeDeferred meta.allFields meta.deferred_fields) deferred hnodup hov
  constructor
  · intro hnone
    have hthis := hchar name
    simp only [hnone] at hthis
    have hsel : selem name deferred = true := by
      rw [hthis]
      exact selem_computeDeferred meta.deferred_fields meta.allFields name info hinfo hdef
    rw [hflds]
    exact dlookup_filter_dropped deferred meta.allFields name hsel
  · intro d hd hf
    have hthis := hchar name
    simp only [hd] at hthis
    have hsel : selem name deferred = false := by rw [hthis]; exact hf
    rw [hflds]
    exact dlookup_filter_kept deferred meta.allFields name info hinfo hsel

theorem C1_default_deferral_witness :
    (dlookup "email" ([("email", RF.bool true)] : List (String × RF)) = none →
      dlookup "email" [("name", (⟨false, false, none⟩ : FieldInfo)),
        ("email", (⟨true, false, none⟩ : FieldInfo))] = none) ∧
    (∀ d : RF, dlookup "email" ([("email", RF.bool true)] : List (String × RF)) = some d →
      isFalseRF d = false →
      dlookup "email" [("name", (⟨false, false, none⟩ : FieldInfo)),
        ("email", (⟨true, false, none⟩ : FieldInfo))] = some ⟨true, false, none⟩) :=
  C1_default_deferral
    ⟨some "person", none, [], [("name", ⟨false, false, none⟩), ("email", ⟨true, false, none⟩)]⟩
    [("email", RF.bool true)] "email" ⟨true, false, none⟩
    [("name", ⟨false, false, none⟩), ("email", ⟨true, false, none⟩)] []
    (by rfl) (by rfl) (by rfl) (by rfl)

/-- C2 counterexample: with request map `{a: False}` and include list
`[a]`, the constructor's include loop overwrites the explicit `False`
with `True`, and resolution then includes `a` — the claim demands that
the request map's `False` win and `a` be excluded. -/
theorem C2_counterexample :
    initRequestFields (some (RF.map [("a", RF.bool false)])) ctx0 (some ["a"]) none =
      Except.ok (RF.map [("a", RF.bool true)]) ∧
    get_fields ⟨some "entity", none, [], [("a", ⟨false, false, none⟩)]⟩
        (RF.map [("a", RF.bool true)]) =
      Except.ok ([("a", ⟨false, false, none⟩)], []) := ⟨rfl, rfl⟩

/-- C2 amended: a field name appearing both in the flat include list and in
`request_fields` with directive `False` is INCLUDED in the resolved field
set, not excluded: the constructor merges the include names into the
request dictionary after taking it from the caller, overwriting the
explicit `False` directive (only the exclude list, merged last, forces
exclusion). -/
theorem C2_amended_include_overrides_false (meta : Meta) (m : List (String × RF))
    (inc : List String) (n : String) (info : FieldInfo) (rf : RF)
    (flds : List (String × FieldInfo)) (ch : List (String × RF))
    (hnodup : keysNodup m = true)
    (_hfalse : dlookup n m = some (RF.bool false))
    (hn : selem n inc = true)
    (hinfo : dlookup n meta.allFields = some info)
    (hinit : initRequestFields (some (RF.map m)) ctx0 (some inc) none = Except.ok rf)
    (hok : get_fields meta rf = Except.ok (flds, ch)) :
    dlookup n flds = some info := by
  rw [initRequestFields_map_inc] at hinit
  simp only [Except.ok.injEq] at hinit
  subst hinit
  obtain ⟨deferred, hov, hflds, hch⟩ := get_fields_map_ok meta _ flds ch hok
  have hchar := applyOverrides_ok_selem meta (meta.allFields.map Prod.fst) _
    (computeDeferred meta.allFields meta.deferred_fields) deferred
    (keysNodup_assignFold (RF.bool true) inc m hnodup) hov
  have hmerged : dlookup n (inc.foldl (fun acc k => dictSet acc k (RF.bool true)) m) =
      some (RF.bool true) := by
    rw [dlookup_assignFold, if_pos hn]
  have hthis := hchar n
  simp only [hmerged] at hthis
  have hsel : selem n deferred = false := by rw [hthis]; rfl
  rw [hflds]
  exact dlookup_filter_kept deferred meta.allFields n info hinfo hsel

theorem C2_amended_witness :
    dlookup "a" [("a", (⟨false, false, none⟩ : FieldInfo))] = some ⟨false, false, none⟩ :=
  C2_amended_include_overrides_false
    ⟨some "entity", none, [], [("a", ⟨false, false, none⟩)]⟩
    [("a", RF.bool false)] ["a"] "a" ⟨false, false, none⟩
    (RF.map [("a", RF.bool true)]) [("a", ⟨false, false, none⟩)] []
    (by rfl) (by rfl) (by rfl) (by rfl) (by rfl) (by rfl)

/-- C3 counterexample: the caller passes the map `{a: False}` and include
list `[a]`; after construction the caller's mapping has changed (its `a`
entry now reads `True`) — the claim asserts it is never mutated. -/
theorem C3_counterexample :
    callerMapAfterInit (RF.map [("a", RF.bool false)]) ctx0 (some ["a"]) none ≠
      RF.map [("a", RF.bool false)] := by
  intro h
  have hc : callerMapAfterInit (RF.map [("a", RF.bool false)]) ctx0 (some ["a"]) none =
      RF.map [("a", RF.bool true)] := rfl
  rw [hc] at h
  simp at h

/-- C3 amended: constructing with a truthy caller-supplied request map and
an include list mutates the caller's mapping in place — the include and
exclude names are merged by keyed assignment directly into the caller's
dictionary, with no defensive copy, so whenever the merge changes a
directive (here: an include name the caller mapped to `False`) the
caller's map afterwards differs from what it held before. -/
theorem C3_amended_constructor_mutates_caller_map (m : List (String × RF))
    (inc : List String) (n : String)
    (hfalse : dlookup n m = some (RF.bool false))
    (hn : selem n inc = true) :
    callerMapAfterInit (RF.map m) ctx0 (some inc) none ≠ RF.map m := by
  have htr : truthy (RF.map m) = true := by
    cases m with
    | nil => simp [dlookup] at hfalse
    | cons p rest => simp [truthy]
  intro h
  have hcall : callerMapAfterInit (RF.map m) ctx0 (some inc) none =
      RF.map (inc.foldl (fun acc k => dictSet acc k (RF.bool true)) m) := by
    simp [callerMapAfterInit, htr, initRequestFields_map_inc]
  rw [hcall] at h
  injection h with h'
  have hlook := dlookup_assignFold (RF.bool true) inc m n
  rw [h', if_pos hn, hfalse] at hlook
  simp at hlook

theorem C3_amended_witness :
    callerMapAfterInit (RF.map [("a", RF.bool false), ("b", RF.bool true)]) ctx0
      (some ["a"]) none ≠ RF.map [("a", RF.bool false), ("b", RF.bool true)] :=
  C3_amended_constructor_mutates_caller_map [("a", RF.bool false), ("b", RF.bool true)]
    ["a"] "a" (by rfl) (by rfl)

/-- C5: a relational field `b` whose request directive is a nested
dictionary `S` has exactly `S` injected as the child serializer's own
top-level request — none of the parent's other directives reach it. -/
theorem C5_nested_request_reparented (meta : Meta) (m S : List (String × RF))
    (b : String) (info : FieldInfo) (flds : List (String × FieldInfo))
    (ch : List (String × RF))
    (hnodup : keysNodup m = true)
    (hinfo : dlookup b meta.allFields = some info)
    (hrel : info.isRelation = true)
    (hS : dlookup b m = some (RF.map S))
    (hok : get_fields meta (RF.map m) = Except.ok (flds, ch)) :
    dlookup b ch = some (RF.map S) := by
  obtain ⟨deferred, hov, hflds, hch⟩ := get_fields_map_ok meta m flds ch hok
  have hchar := applyOverrides_ok_selem meta (meta.allFields.map Prod.fst) m
    (computeDeferred meta.allFields meta.deferred_fields) deferred hnodup hov
  have hthis := hchar b
  simp only [hS] at hthis
  have hsel : selem b deferred = false := by rw [hthis]; rfl
  have hmem : dlookup b flds = some info := by
    rw [hflds]
    exact dlookup_filter_kept deferred meta.allFields b info hinfo hsel
  have hget := childRequests_dlookup m flds ch b info hch hmem hrel
  rw [hS] at hget
  simpa using hget

theorem C5_nested_request_reparented_witness :
    dlookup "author"
      ([("author", RF.map [("x", RF.bool false)])] : List (String × RF)) =
      some (RF.map [("x", RF.bool false)]) :=
  C5_nested_request_reparented
    ⟨some "post", none, [], [("title", ⟨false, false, none⟩),
      ("author", ⟨false, true, some "person"⟩)]⟩
    [("author", RF.map [("x", RF.bool false)])] [("x", RF.bool false)]
    "author" ⟨false, true, some "person"⟩
    [("title", ⟨false, false, none⟩), ("author", ⟨false, true, some "person"⟩)]
    [("author", RF.map [("x", RF.bool false)])]
    (by rfl) (by rfl) (by rfl) (by rfl) (by rfl)

/-- C6: a relational field of the resolved set whose merged directive is
not a nested dictionary gets the sentinel `True` injected as its child
request (`False` is never propagated for an included relation), and under
that sentinel a child serializer returns the related instance's bare
primary key. -/
theorem C6_default_child_request (meta : Meta) (m : List (String × RF)) (b : String)
    (info : FieldInfo) (flds : List (String × FieldInfo)) (ch : List (String × RF))
    (hnodup : keysNodup m = true)
    (hok : get_fields meta (RF.map m) = Except.ok (flds, ch))
    (hin : dlookup b flds = some info)
    (hrel : info.isRelation = true)
    (hnomap : ∀ S : List (String × RF), dlookup b m ≠ some (RF.map S)) :
    dlookup b ch = some (RF.bool true) ∧
    (∀ (reg : List (String × Meta)) (fuel : Nat) (cmeta : Meta) (i : Instance),
      toRep reg fuel cmeta (RF.bool true) i = Except.ok i.pk) := by
  obtain ⟨deferred, hov, hflds, hch⟩ := get_fields_map_ok meta m flds ch hok
  have hget := childRequests_dlookup m flds ch b info hch hin hrel
  refine ⟨?_, toRep_bool_true⟩
  cases hd : dlookup b m with
  | none => rw [hd] at hget; simpa using hget
  | some d =>
    cases d with
    | map S => exact absurd hd (hnomap S)
    | bool bb =>
      cases bb with
      | true => rw [hd] at hget; simpa using hget
      | false =>
        have hchar := applyOverrides_ok_selem meta (meta.allFields.map Prod.fst) m
          (computeDeferred meta.allFields meta.deferred_fields) deferred hnodup hov
        have hthis := hchar b
        simp only [hd] at hthis
        have hsel : selem b deferred = true := by rw [hthis]; rfl
        have hdrop : dlookup b flds = none := by
          rw [hflds]
          exact dlookup_filter_dropped deferred meta.allFields b hsel
        rw [hin] at hdrop
        simp at hdrop

theorem C6_default_child_request_witness :
    dlookup "author" ([("author", RF.bool true)] : List (String × RF)) =
      some (RF.bool true) ∧
    (∀ (reg : List (String × Meta)) (fuel : Nat) (cmeta : Meta) (i : Instance),
      toRep reg fuel cmeta (RF.bool true) i = Except.ok i.pk) :=
  C6_default_child_request
    ⟨some "post", none, [], [("title", ⟨false, false, none⟩),
      ("author", ⟨false, true, some "person"⟩)]⟩
    [("author", RF.bool true)] "author" ⟨false, true, some "person"⟩
    [("title", ⟨false, false, none⟩), ("author", ⟨false, true, some "person"⟩)]
    [("author", RF.bool true)]
    (by rfl) (by rfl) (by rfl) (by rfl)
    (by intro S h; exact absurd h (by simp [dlookup]))

/-- C7: a merged request dictionary naming a field absent from the schema
makes resolution fail synchronously with the `ParseError` that formats
that exact field name and the schema's canonical `Meta.name` (the error
the spec's taxonomy calls `UnknownFieldError`); the offending name is the
first unknown one, it is no declared field, and it is named by the
request. -/
theorem C7_unknown_field_rejection (meta : Meta) (m : List (String × RF)) (nm n : String)
    (hname : meta.name = some nm)
    (hfirst : firstUnknown (meta.allFields.map Prod.fst) m = some n) :
    selem n (meta.allFields.map Prod.fst) = false ∧
    (dlookup n m).isSome = true ∧
    get_fields meta (RF.map m) = Except.error (PyErr.parseError n nm) := by
  obtain ⟨h1, h2, h3⟩ := applyOverrides_firstUnknown meta (meta.allFields.map Prod.fst)
    nm hname m (computeDeferred meta.allFields meta.deferred_fields) n hfirst
  refine ⟨h2, h3, ?_⟩
  rw [get_fields_map_eq]
  simp only [h1]

theorem C7_unknown_field_rejection_witness :
    selem "bogus" ((⟨some "person", none, [],
        [("a", ⟨false, false, none⟩)]⟩ : Meta).allFields.map Prod.fst) = false ∧
    (dlookup "bogus" ([("bogus", RF.bool true)] : List (String × RF))).isSome = true ∧
    get_fields ⟨some "person", none, [], [("a", ⟨false, false, none⟩)]⟩
        (RF.map [("bogus", RF.bool true)]) =
      Except.error (PyErr.parseError "bogus" "person") :=
  C7_unknown_field_rejection ⟨some "person", none, [], [("a", ⟨false, false, none⟩)]⟩
    [("bogus", RF.bool true)] "person" "bogus" (by rfl) (by rfl)

/-- C8: every representation produced in non-identifier-only mode is a
dictionary carrying the two reserved metadata keys: `_name` holding the
schema's plural name (`Meta.plural_name` when declared, otherwise the
canonical name with `s` appended) and `_pk` holding the instance's
primary-key value. -/
theorem C8_reserved_metadata_keys (reg : List (String × Meta)) (fuel : Nat) (meta : Meta)
    (rf : RF) (inst : Instance) (v : Value) (nm : String)
    (hname : meta.name = some nm)
    (hid : id_only rf = false)
    (hok : toRep reg fuel meta rf inst = Except.ok v) :
    Value.isMap v = true ∧
    Value.mlookup v "_name" = some (Value.str (meta.plural_name.getD (nm ++ "s"))) ∧
    Value.mlookup v "_pk" = some inst.pk := by
  cases fuel with
  | zero =>
    rw [toRep_zero, if_neg (by simp [hid])] at hok
    exact absurd hok (by simp)
  | succ nfuel =>
    rw [toRep_succ, if_neg (by simp [hid])] at hok
    cases hgf : get_fields meta rf with
    | error e => simp [hgf] at hok
    | ok p =>
      obtain ⟨flds, child⟩ := p
      simp only [hgf] at hok
      cases hsf : serFields (fun cm crf ci => toRep reg nfuel cm crf ci) reg inst child flds with
      | error e => simp [hsf] at hok
      | ok pairs =>
        simp only [hsf] at hok
        rw [get_plural_name_of_name meta nm hname] at hok
        simp only [Except.ok.injEq] at hok
        subst hok
        refine ⟨rfl, ?_, ?_⟩
        · simp only [Value.mlookup]
          rw [dlookup_dictSet_ne "_pk" "_name" inst.pk (by decide),
            dlookup_dictSet_self]
        · simp only [Value.mlookup]
          rw [dlookup_dictSet_self]

theorem C8_reserved_metadata_keys_witness :
    Value.isMap (Value.vmap [("age", Value.int 30), ("_name", Value.str "persons"),
      ("_pk", Value.int 1)]) = true ∧
    Value.mlookup (Value.vmap [("age", Value.int 30), ("_name", Value.str "persons"),
      ("_pk", Value.int 1)]) "_name" = some (Value.str "persons") ∧
    Value.mlookup (Value.vmap [("age", Value.int 30), ("_name", Value.str "persons"),
      ("_pk", Value.int 1)]) "_pk" =
      some (Instance.pk (Instance.mk (Value.int 1) [("age", Attr.scalar (Value.int 30))])) :=
  C8_reserved_metadata_keys [] 1 ⟨some "person", none, [], [("age", ⟨false, false, none⟩)]⟩
    (RF.map []) (Instance.mk (Value.int 1) [("age", Attr.scalar (Value.int 30))])
    (Value.vmap [("age", Value.int 30), ("_name", Value.str "persons"), ("_pk", Value.int 1)])
    "person" (by rfl) (by rfl) (by rfl)

/-- C10 counterexample: a schema lacking the canonical `name` declaration
passes serializer construction and field resolution untouched — the code
has no registration-time check — and the failure surfaces only during
per-request serialization, as the attribute error on `Meta.name`; the
claim asserts a fail-fast error at schema-registration time instead. -/
theorem C10_counterexample :
    initRequestFields (some (RF.map [])) ctx0 none none = Except.ok (RF.map []) ∧
    get_fields ⟨none, none, [], []⟩ (RF.map []) = Except.ok ([], []) ∧
    toRep [] 1 ⟨none, none, [], []⟩ (RF.map []) (Instance.mk (Value.int 1) []) =
      Except.error (PyErr.attributeError "name") := ⟨rfl, rfl, rfl⟩

/-- C10 amended: the code performs no schema-registration-time check of the
canonical name: a schema without `Meta.name` is constructible and resolves
fields, and the missing name surfaces per request, during serialization,
as the attribute error on `name` (raised by `get_plural_name`, which
evaluates `self.get_name()` even when `plural_name` is declared). -/
theorem C10_amended_name_error_is_per_request (meta : Meta) (reg : List (String × Meta))
    (fuel : Nat) (inst : Instance)
    (hname : meta.name = none)
    (hflds : meta.allFields = []) :
    toRep reg (fuel + 1) meta (RF.map []) inst =
      Except.error (PyErr.attributeError "name") := by
  rw [toRep_succ, if_neg (by simp [id_only])]
  have hgf : get_fields meta (RF.map []) = Except.ok ([], []) := by
    simp [get_fields, id_only, truthy, hflds, computeDeferred, childRequests]
  simp [hgf, serFields, get_plural_name, get_name, hname]

theorem C10_amended_witness :
    toRep [] 3 ⟨none, some "things", [], []⟩ (RF.map [])
      (Instance.mk (Value.int 5) []) = Except.error (PyErr.attributeError "name") :=
  C10_amended_name_error_is_per_request ⟨none, some "things", [], []⟩ [] 2
    (Instance.mk (Value.int 5) []) (by rfl) (by rfl)

end DynamicRest
